import Mathlib

/-!
Verification development for the BevyMapApp slippy-tile map viewer.

The host layer (camera setup, the startup fetch request, and the
`display_tiles` sprite-placement system) is embedded from `src/main.rs`.
The tile engine behind it (coordinate projection, cache index, download
scheduler, fetch workers, completion notifier) lives in the external
`bevy_slippy_tiles` crate, whose source is not part of this repository;
those components are modelled from the specification (spec.md §3, §4.2,
§4.3, §4.4, §4.5), as marked on each definition.

Numeric conventions of the shallow embedding: the Rust `f32`/`f64`
arithmetic of the host is modelled over `ℚ` (the expressions involved are
exact sums, differences, products and halvings of small integers, so no
rounding is lost); tile indices (`u32` in the crate) are `ℕ`, and signed
intermediate values are `ℤ`.
-/

/-! ## Tile coordinate math (spec §4.1; used by `display_tiles`, src/main.rs:250-266) -/

/-- Slippy-tile x index: `x = ⌊(lon + 180)/360 · 2^zoom⌋` (spec §4.1). -/
def tile_x (lon : ℚ) (zoom : ℕ) : ℤ :=
  Int.floor ((lon + 180) / 360 * 2 ^ zoom)

/-- Slippy-tile y index as a function of the Mercator term
`m = ln(tan lat_rad + 1/cos lat_rad)/π`: `y = ⌊(1 − m)/2 · 2^zoom⌋`
(spec §4.1). The transcendental term is taken as an argument so the
formula itself stays exact rational arithmetic; at latitude 0 the term
is exactly 0, which is proved over `ℝ` in the theorems below. -/
def tile_y_of_merc (m : ℚ) (zoom : ℕ) : ℤ :=
  Int.floor ((1 - m) / 2 * 2 ^ zoom)

/-- Tile sizes offered by the crate: Normal = 256px, Large = 512px (spec §3). -/
inductive TileSize where
  | Normal : TileSize
  | Large : TileSize
deriving DecidableEq, Repr

/-- Pixel width of a tile (spec §3). -/
def TileSize.to_pixels : TileSize → ℕ
  | .Normal => 256
  | .Large => 512

/-- Slippy tile grid coordinates, `u32` x/y in the crate. -/
structure SlippyTileCoordinates where
  x : ℕ
  y : ℕ
deriving DecidableEq, Repr

/-- A downloaded-tile notification as consumed by `display_tiles`
(src/main.rs:243): zoom level, tile size, tile coordinates and the saved
file's path. Per spec §6 the event's coordinates are carried as tile x/y. -/
structure SlippyTileDownloadedEvent where
  zoom_level : ℕ
  tile_size : TileSize
  coordinates : SlippyTileCoordinates
  path : String
deriving DecidableEq, Repr

/-- The `WorldState` resource of the host (src/main.rs:56-61): only the
fixed `world` extent is read by `display_tiles`. -/
structure WorldState where
  world : ℚ × ℚ
deriving DecidableEq, Repr

/-- The origin (reference) tile computed inside `display_tiles`
(src/main.rs:250-254): the slippy-tile coordinates of latitude 0,
longitude 0 at the given zoom level. At (0°,0°) the crate's projection
reduces to the exact rational formulas `tile_x 0` and `tile_y_of_merc 0`
(the Mercator term vanishes). -/
def origin_tile (zoom : ℕ) : SlippyTileCoordinates :=
  ⟨(tile_x 0 zoom).toNat, (tile_y_of_merc 0 zoom).toNat⟩

/-- The sprite translation computed by `display_tiles` for a given origin
tile (src/main.rs:262-266):
`(origin − current) · tile_px − world/2 + tile_px/2` per axis. -/
def transform_with_origin (origin : SlippyTileCoordinates) (st : WorldState)
    (ev : SlippyTileDownloadedEvent) : ℚ × ℚ :=
  let tile_pixels : ℚ := ev.tile_size.to_pixels
  (((origin.x : ℚ) - (ev.coordinates.x : ℚ)) * tile_pixels - st.world.1 / 2 + tile_pixels / 2,
   ((origin.y : ℚ) - (ev.coordinates.y : ℚ)) * tile_pixels - st.world.2 / 2 + tile_pixels / 2)

/-- The sprite translation `display_tiles` assigns to an event's tile: the
origin is recomputed from (0°,0°) at the event's zoom level
(src/main.rs:248-266). -/
def tile_transform (st : WorldState) (ev : SlippyTileDownloadedEvent) : ℚ × ℚ :=
  transform_with_origin (origin_tile ev.zoom_level) st ev

/-- The sprite spawned by `display_tiles` for one event
(src/main.rs:272-281): texture path, translation, and custom size
`tile_pixels × tile_pixels`. -/
structure Sprite where
  path : String
  translation : ℚ × ℚ
  custom_size : ℚ × ℚ
deriving DecidableEq, Repr

/-- Handling of a single event by `display_tiles` (src/main.rs:245-281):
unconditionally spawn one sprite. -/
def spawn_sprite (st : WorldState) (ev : SlippyTileDownloadedEvent) : Sprite :=
  ⟨ev.path, tile_transform st ev,
   ((ev.tile_size.to_pixels : ℚ), (ev.tile_size.to_pixels : ℚ))⟩

/-- The `display_tiles` system (src/main.rs:239-283): one sprite is spawned
per event read, in order; no deduplication, no filtering. -/
def display_tiles (st : WorldState) (evs : List SlippyTileDownloadedEvent) : List Sprite :=
  evs.map (spawn_sprite st)

/-- Pixel offset of `key`'s tile relative to `origin`'s tile as the spec
words it (spec §4.1 `to_pixel_offset`):
`((origin.x − key.x) · tile_px, (origin.y − key.y) · tile_px)`.
Spec-side definition, to be compared with the host's `tile_transform`. -/
def to_pixel_offset (key origin : SlippyTileCoordinates) (tile_px : ℤ) : ℤ × ℤ :=
  (((origin.x : ℤ) - (key.x : ℤ)) * tile_px, ((origin.y : ℤ) - (key.y : ℤ)) * tile_px)

/-! ## Host fetch-request emissions (src/main.rs:63-152) -/

/-- A fetch request as sent by the host (src/main.rs:97-103): tile size,
zoom level, latitude/longitude coordinates, radius, cache flag. -/
structure DownloadSlippyTilesEvent where
  tile_size : TileSize
  zoom_level : ℕ
  coordinates : ℚ × ℚ
  radius : ℕ
  use_cache : Bool
deriving DecidableEq, Repr

/-- The fetch requests emitted by `setup` (src/main.rs:97-104): exactly one,
with TileSize::Normal, ZoomLevel::L1, latitude/longitude (0,0), Radius(1),
use_cache = true. -/
def setup_fetch_events : List DownloadSlippyTilesEvent :=
  [{ tile_size := .Normal, zoom_level := 1, coordinates := (0, 0),
     radius := 1, use_cache := true }]

/-- The `end_moving` handler (src/main.rs:131-152), given the camera
translation: it computes latitude = y/10 and longitude = x/10 and logs
them, but emits no fetch-request event. Returns the computed
latitude/longitude pair and the (empty) list of emitted requests. -/
def end_moving (camera_x camera_y : ℚ) : (ℚ × ℚ) × List DownloadSlippyTilesEvent :=
  ((camera_y / 10, camera_x / 10), [])

/-! ## Cache index and download scheduler

Modelled from the spec: the cache index, download scheduler, fetch
workers and completion notifier live in the external `bevy_slippy_tiles`
crate, whose source is not in this repository; `src/main.rs` only calls
them (src/main.rs:97-104). Every definition in this section follows
spec.md §3, §4.2, §4.3, §4.4, §4.5 and §7. -/

/-- Modelled from the spec (§3 SlippyTileKey): the primary cache/dedup key
`(zoom, x, y, size)`. -/
structure SlippyTileKey where
  zoom : ℕ
  x : ℕ
  y : ℕ
  size : TileSize
deriving DecidableEq, Repr

/-- Modelled from the spec (§3 DownloadRecord): the per-key state
{NotRequested, InFlight, Completed(path), Failed(reason)}. -/
inductive DownloadRecord where
  | NotRequested : DownloadRecord
  | InFlight : DownloadRecord
  | Completed : String → DownloadRecord
  | Failed : String → DownloadRecord
deriving DecidableEq, Repr

/-- Modelled from the spec (§4.2): the cache index mapping keys to
records, as an association list; an absent key reads as NotRequested
(records are created lazily on first reference, spec §3). -/
def CacheIndex : Type := List (SlippyTileKey × DownloadRecord)

/-- Modelled from the spec (§4.2 `lookup`): the newest record for a key,
NotRequested when the key was never touched. -/
def lookup : CacheIndex → SlippyTileKey → DownloadRecord
  | [], _ => .NotRequested
  | (k', r) :: rest, k => if k = k' then r else lookup rest k

/-- Setting a key's record (newest binding shadows older ones). -/
def set_record (c : CacheIndex) (k : SlippyTileKey) (r : DownloadRecord) : CacheIndex :=
  (k, r) :: c

/-- Modelled from the spec (§4.2, §7): the error signalled on
double-dispatch of a key. -/
inductive CacheError where
  | AlreadyInFlight : CacheError
deriving DecidableEq, Repr

/-- Modelled from the spec (§4.2 `mark_in_flight`): transitions a key to
InFlight; fails with AlreadyInFlight when called again before the key's
terminal transition (a completion in between re-enables it). -/
def mark_in_flight (c : CacheIndex) (k : SlippyTileKey) : Except CacheError CacheIndex :=
  match lookup c k with
  | .InFlight => .error .AlreadyInFlight
  | _ => .ok (set_record c k .InFlight)

/-- Modelled from the spec (§4.2 `mark_completed`): transitions
InFlight → Completed(path); on any other record it is a defensive no-op
(only InFlight→terminal transitions are specified). -/
def mark_completed (c : CacheIndex) (k : SlippyTileKey) (path : String) : CacheIndex :=
  match lookup c k with
  | .InFlight => set_record c k (.Completed path)
  | _ => c

/-- Modelled from the spec (§4.2 `mark_failed`): transitions
InFlight → Failed(reason); defensive no-op otherwise. -/
def mark_failed (c : CacheIndex) (k : SlippyTileKey) (reason : String) : CacheIndex :=
  match lookup c k with
  | .InFlight => set_record c k (.Failed reason)
  | _ => c

/-- Modelled from the spec (§3, §6 FetchRequest): tile size, zoom,
center tile, radius, cache flag. The geographic center is carried here
already projected to its center tile by the Tile Coordinate Math
(spec §4.3 step 1); the projection at a general latitude is
transcendental, so the scheduler model starts from the tile. -/
structure FetchRequest where
  size : TileSize
  zoom : ℕ
  center : ℤ × ℤ
  radius : ℕ
  use_cache : Bool
deriving DecidableEq, Repr

/-- Modelled from the spec (§4.3): is a candidate tile position inside the
valid grid `[0, 2^zoom − 1] × [0, 2^zoom − 1]`? -/
def in_bounds (zoom : ℕ) (p : ℤ × ℤ) : Bool :=
  decide (0 ≤ p.1) && decide (p.1 ≤ 2 ^ zoom - 1) &&
  decide (0 ≤ p.2) && decide (p.2 ≤ 2 ^ zoom - 1)

/-- Modelled from the spec (§4.3): the raw `(2R+1)²` square neighborhood
`(x ± R, y ± R)` around the request's center tile, before clipping. -/
def shifted_grid (req : FetchRequest) : List (ℤ × ℤ) :=
  (List.product (List.range (2 * req.radius + 1)) (List.range (2 * req.radius + 1))).map
    (fun ij => (req.center.1 - req.radius + ij.1, req.center.2 - req.radius + ij.2))

/-- Modelled from the spec (§4.3): the candidate keys of a request — the
square neighborhood clipped to the grid bounds, out-of-range positions
silently dropped (not wrapped). -/
def candidates (req : FetchRequest) : List SlippyTileKey :=
  ((shifted_grid req).filter (in_bounds req.zoom)).map
    (fun p => ⟨req.zoom, p.1.toNat, p.2.toNat, req.size⟩)

/-- Modelled from the spec (§4.3): dispatch when `use_cache` is false, or
the record is NotRequested/Failed (Failed is treated like NotRequested,
spec §4.4). -/
def should_dispatch (use_cache : Bool) (r : DownloadRecord) : Bool :=
  if use_cache then
    match r with
    | .NotRequested => true
    | .Failed _ => true
    | _ => false
  else true

/-- Modelled from the spec (§4.3, §7): one scheduler step on one candidate
key — if it should be dispatched, mark it InFlight and record the
dispatch; an AlreadyInFlight signal is treated defensively as a no-op
(spec §7). The accumulator carries the cache and the list of dispatched
keys (= fetch workers started = network calls made). -/
def schedule_step (use_cache : Bool) (acc : CacheIndex × List SlippyTileKey)
    (k : SlippyTileKey) : CacheIndex × List SlippyTileKey :=
  if should_dispatch use_cache (lookup acc.1 k) then
    match mark_in_flight acc.1 k with
    | .ok c' => (c', acc.2 ++ [k])
    | .error _ => acc
  else acc

/-- Modelled from the spec (§4.3 Download Scheduler): expand the request
into its candidate keys, filter through the cache index, mark each
dispatched key InFlight; returns the new cache and the dispatched keys. -/
def schedule (c : CacheIndex) (req : FetchRequest) : CacheIndex × List SlippyTileKey :=
  (candidates req).foldl (schedule_step req.use_cache) (c, [])

/-- Modelled from the spec (§4.4): the outcome one fetch worker reports
for its key. -/
inductive WorkerOutcome where
  | success : String → WorkerOutcome
  | failure : String → WorkerOutcome
deriving DecidableEq, Repr

/-- Modelled from the spec (§6 TileDownloadedEvent): key and saved path. -/
structure TileDownloadedEvent where
  key : SlippyTileKey
  path : String
deriving DecidableEq, Repr

/-- Modelled from the spec (§4.4, §4.5): a worker finishing reports to the
cache index; each Completed transition makes the notifier emit one
TileDownloadedEvent, a failure records Failed and emits nothing; without
an InFlight record there is no transition and no event. -/
def finish_worker (c : CacheIndex) (k : SlippyTileKey) :
    WorkerOutcome → CacheIndex × List TileDownloadedEvent
  | .success path =>
      match lookup c k with
      | .InFlight => (set_record c k (.Completed path), [⟨k, path⟩])
      | _ => (c, [])
  | .failure reason => (mark_failed c k reason, [])

/-- Modelled from the spec (§4.4, §5): the in-flight workers of a request
finish one at a time in some arbitrary order; each reports its outcome
to the cache index and the emitted notifications are collected. -/
def run_workers (c : CacheIndex) :
    List (SlippyTileKey × WorkerOutcome) → CacheIndex × List TileDownloadedEvent
  | [] => (c, [])
  | (k, o) :: rest =>
      let step := finish_worker c k o
      let tail := run_workers step.1 rest
      (tail.1, step.2 ++ tail.2)

/-- Modelled from the spec (§4.2, §4.5): mark every key of a dispatched
list Completed with the path its worker derived from the key. -/
def complete_all (c : CacheIndex) (d : List SlippyTileKey) (f : SlippyTileKey → String) :
    CacheIndex :=
  d.foldl (fun acc k => mark_completed acc k (f k)) c

/-- Modelled from the spec (§3, §5): cache-index transitions reachable in
this program — scheduler runs for requests with `use_cache = true` (the
only kind the host ever emits, src/main.rs:102) and worker completions
or failures. -/
inductive CacheStep : CacheIndex → CacheIndex → Prop where
  | sched (c : CacheIndex) (req : FetchRequest) (h : req.use_cache = true) :
      CacheStep c (schedule c req).1
  | finish (c : CacheIndex) (k : SlippyTileKey) (o : WorkerOutcome) :
      CacheStep c (finish_worker c k o).1

/-! ## Basic cache lemmas -/

theorem lookup_set_self (c : CacheIndex) (k : SlippyTileKey) (r : DownloadRecord) :
    lookup (set_record c k r) k = r := by
  simp [lookup, set_record]

theorem lookup_set_ne (c : CacheIndex) (k k' : SlippyTileKey) (r : DownloadRecord)
    (h : k' ≠ k) : lookup (set_record c k r) k' = lookup c k' := by
  simp [lookup, set_record, h]

theorem should_dispatch_true_eq_false_iff (r : DownloadRecord) :
    should_dispatch true r = false ↔ (r = .InFlight ∨ ∃ p, r = .Completed p) := by
  cases r <;> simp [should_dispatch]

theorem schedule_step_true_eq (c : CacheIndex) (acc : List SlippyTileKey) (k : SlippyTileKey) :
    schedule_step true (c, acc) k =
      if should_dispatch true (lookup c k) then (set_record c k .InFlight, acc ++ [k])
      else (c, acc) := by
  cases h : lookup c k <;> simp [schedule_step, should_dispatch, mark_in_flight, h]

/-! ## Scheduler fold lemmas (all for `use_cache = true`) -/

theorem sched_fold_acc_mono (l : List SlippyTileKey) :
    ∀ (c : CacheIndex) (acc : List SlippyTileKey),
      ∃ t, (l.foldl (schedule_step true) (c, acc)).2 = acc ++ t := by
  induction l with
  | nil => intro c acc; exact ⟨[], by simp⟩
  | cons k₀ tl ih =>
      intro c acc
      rw [List.foldl_cons, schedule_step_true_eq]
      by_cases h : should_dispatch true (lookup c k₀) = true
      · rw [if_pos h]
        obtain ⟨t, ht⟩ := ih (set_record c k₀ .InFlight) (acc ++ [k₀])
        exact ⟨[k₀] ++ t, by simpa using ht⟩
      · rw [if_neg h]
        exact ih c acc

theorem sched_fold_frame (l : List SlippyTileKey) :
    ∀ (c : CacheIndex) (acc : List SlippyTileKey) (k : SlippyTileKey),
      k ∉ (l.foldl (schedule_step true) (c, acc)).2 →
      lookup (l.foldl (schedule_step true) (c, acc)).1 k = lookup c k := by
  induction l with
  | nil => intro c acc k _; rfl
  | cons k₀ tl ih =>
      intro c acc k hk
      rw [List.foldl_cons, schedule_step_true_eq] at hk ⊢
      by_cases h : should_dispatch true (lookup c k₀) = true
      · rw [if_pos h] at hk ⊢
        have hne : k ≠ k₀ := by
          rintro rfl
          obtain ⟨t, ht⟩ := sched_fold_acc_mono tl (set_record c k .InFlight) (acc ++ [k])
          exact hk (by rw [ht]; simp)
        rw [ih _ _ _ hk, lookup_set_ne _ _ _ _ hne]
      · rw [if_neg h] at hk ⊢
        exact ih _ _ _ hk

theorem sched_fold_skipped (l : List SlippyTileKey) :
    ∀ (c : CacheIndex) (acc : List SlippyTileKey) (k : SlippyTileKey),
      k ∈ l → k ∉ (l.foldl (schedule_step true) (c, acc)).2 →
      should_dispatch true (lookup c k) = false := by
  induction l with
  | nil => intro c acc k hk; exact absurd hk (List.not_mem_nil k)
  | cons k₀ tl ih =>
      intro c acc k hk hnd
      rw [List.foldl_cons, schedule_step_true_eq] at hnd
      by_cases h : should_dispatch true (lookup c k₀) = true
      · rw [if_pos h] at hnd
        have hne : k ≠ k₀ := by
          rintro rfl
          obtain ⟨t, ht⟩ := sched_fold_acc_mono tl (set_record c k .InFlight) (acc ++ [k])
          exact hnd (by rw [ht]; simp)
        have hk' : k ∈ tl := by
          rcases List.mem_cons.mp hk with h' | h'
          · exact absurd h' hne
          · exact h'
        have := ih _ _ _ hk' hnd
        rwa [lookup_set_ne _ _ _ _ hne] at this
      · rw [if_neg h] at hnd
        rcases List.mem_cons.mp hk with h' | h'
        · rw [h']; exact Bool.not_eq_true _ ▸ h
        · exact ih _ _ _ h' hnd

theorem sched_fold_dispatched_inflight (l : List SlippyTileKey) :
    ∀ (c : CacheIndex) (acc : List SlippyTileKey),
      (∀ k ∈ acc, lookup c k = .InFlight) →
      ∀ k ∈ (l.foldl (schedule_step true) (c, acc)).2,
        lookup (l.foldl (schedule_step true) (c, acc)).1 k = .InFlight := by
  induction l with
  | nil => intro c acc hacc k hk; exact hacc k hk
  | cons k₀ tl ih =>
      intro c acc hacc k hk
      rw [List.foldl_cons, schedule_step_true_eq] at hk ⊢
      by_cases h : should_dispatch true (lookup c k₀) = true
      · rw [if_pos h] at hk ⊢
        refine ih _ _ ?_ k hk
        intro k' hk'
        rcases List.mem_append.mp hk' with h' | h'
        · by_cases he : k' = k₀
          · rw [he, lookup_set_self]
          · rw [lookup_set_ne _ _ _ _ he]; exact hacc k' h'
        · rw [List.mem_singleton.mp h', lookup_set_self]
      · rw [if_neg h] at hk ⊢
        exact ih _ _ hacc k hk

theorem sched_fold_completed_pres (l : List SlippyTileKey) :
    ∀ (c : CacheIndex) (acc : List SlippyTileKey) (k : SlippyTileKey) (p : String),
      lookup c k = .Completed p →
      lookup (l.foldl (schedule_step true) (c, acc)).1 k = .Completed p := by
  induction l with
  | nil => intro c acc k p hp; exact hp
  | cons k₀ tl ih =>
      intro c acc k p hp
      rw [List.foldl_cons, schedule_step_true_eq]
      by_cases h : should_dispatch true (lookup c k₀) = true
      · rw [if_pos h]
        have hne : k ≠ k₀ := by
          rintro rfl
          rw [hp] at h
          simp [should_dispatch] at h
        exact ih _ _ _ _ (by rwa [lookup_set_ne _ _ _ _ hne])
      · rw [if_neg h]
        exact ih _ _ _ _ hp

theorem sched_fold_noop (l : List SlippyTileKey) (uc : Bool) :
    ∀ (c : CacheIndex) (acc : List SlippyTileKey),
      (∀ k ∈ l, should_dispatch uc (lookup c k) = false) →
      l.foldl (schedule_step uc) (c, acc) = (c, acc) := by
  induction l with
  | nil => intro c acc _; rfl
  | cons k₀ tl ih =>
      intro c acc hl
      rw [List.foldl_cons]
      have h0 : should_dispatch uc (lookup c k₀) = false := hl k₀ (by simp)
      have : schedule_step uc (c, acc) k₀ = (c, acc) := by
        simp [schedule_step, h0]
      rw [this]
      exact ih c acc (fun k hk => hl k (List.mem_cons_of_mem _ hk))

/-! ## Completion lemmas -/

theorem mark_completed_completed_pres (c : CacheIndex) (k k₀ : SlippyTileKey)
    (path p : String) (hp : lookup c k = .Completed p) :
    lookup (mark_completed c k₀ path) k = .Completed p := by
  unfold mark_completed
  cases h : lookup c k₀ with
  | InFlight =>
      have hne : k ≠ k₀ := by rintro rfl; rw [hp] at h; exact absurd h (by simp)
      rw [lookup_set_ne _ _ _ _ hne]; exact hp
  | NotRequested => exact hp
  | Completed q => exact hp
  | Failed r => exact hp

theorem mark_completed_ne (c : CacheIndex) (k k₀ : SlippyTileKey) (path : String)
    (hne : k ≠ k₀) : lookup (mark_completed c k₀ path) k = lookup c k := by
  unfold mark_completed
  cases h : lookup c k₀ with
  | InFlight => rw [lookup_set_ne _ _ _ _ hne]
  | NotRequested => rfl
  | Completed q => rfl
  | Failed r => rfl

theorem complete_all_completed_pres (d : List SlippyTileKey) :
    ∀ (c : CacheIndex) (f : SlippyTileKey → String) (k : SlippyTileKey) (p : String),
      lookup c k = .Completed p → lookup (complete_all c d f) k = .Completed p := by
  induction d with
  | nil => intro c f k p hp; exact hp
  | cons k₀ tl ih =>
      intro c f k p hp
      exact ih _ _ _ _ (mark_completed_completed_pres c k k₀ (f k₀) p hp)

theorem complete_all_untouched (d : List SlippyTileKey) :
    ∀ (c : CacheIndex) (f : SlippyTileKey → String) (k : SlippyTileKey),
      k ∉ d → lookup (complete_all c d f) k = lookup c k := by
  induction d with
  | nil => intro c f k _; rfl
  | cons k₀ tl ih =>
      intro c f k hk
      have hne : k ≠ k₀ := fun h => hk (h ▸ List.mem_cons_self k₀ tl)
      have htl : k ∉ tl := fun h => hk (List.mem_cons_of_mem _ h)
      rw [complete_all, List.foldl_cons, ← complete_all, ih _ _ _ htl,
        mark_completed_ne _ _ _ _ hne]

theorem complete_all_completes (d : List SlippyTileKey) :
    ∀ (c : CacheIndex) (f : SlippyTileKey → String),
      (∀ k ∈ d, lookup c k = .InFlight ∨ ∃ p, lookup c k = .Completed p) →
      ∀ k ∈ d, ∃ p, lookup (complete_all c d f) k = .Completed p := by
  induction d with
  | nil => intro c f _ k hk; exact absurd hk (List.not_mem_nil k)
  | cons k₀ tl ih =>
      intro c f hd k hk
      rw [complete_all, List.foldl_cons, ← complete_all]
      have hstep : ∀ k' ∈ tl, lookup (mark_completed c k₀ (f k₀)) k' = .InFlight ∨
          ∃ p, lookup (mark_completed c k₀ (f k₀)) k' = .Completed p := by
        intro k' hk'
        by_cases he : k' = k₀
        · subst he
          rcases hd k' (List.mem_cons_self _ _) with h | ⟨p, h⟩
          · right; exact ⟨f k', by rw [mark_completed, h, lookup_set_self]⟩
          · right; exact ⟨p, mark_completed_completed_pres c k' k' (f k') p h⟩
        · rw [mark_completed_ne _ _ _ _ he]
          exact hd k' (List.mem_cons_of_mem _ hk')
      rcases List.mem_cons.mp hk with rfl | hk'
      · have : ∃ p, lookup (mark_completed c k (f k)) k = .Completed p := by
          rcases hd k (List.mem_cons_self _ _) with h | ⟨p, h⟩
          · exact ⟨f k, by rw [mark_completed, h, lookup_set_self]⟩
          · exact ⟨p, mark_completed_completed_pres c k k (f k) p h⟩
        obtain ⟨p, hp⟩ := this
        exact ⟨p, complete_all_completed_pres tl _ _ _ _ hp⟩
      · exact ih _ _ hstep k hk'

/-! ## Worker lemmas -/

theorem finish_worker_completed_pres (c : CacheIndex) (k k' : SlippyTileKey)
    (o : WorkerOutcome) (p : String) (hp : lookup c k = .Completed p) :
    lookup (finish_worker c k' o).1 k = .Completed p := by
  cases o with
  | success q =>
      unfold finish_worker
      cases h : lookup c k' with
      | InFlight =>
          have hne : k ≠ k' := by rintro rfl; rw [hp] at h; exact absurd h (by simp)
          rw [lookup_set_ne _ _ _ _ hne]; exact hp
      | NotRequested => exact hp
      | Completed q' => exact hp
      | Failed r => exact hp
  | failure r =>
      show lookup (mark_failed c k' r) k = .Completed p
      unfold mark_failed
      cases h : lookup c k' with
      | InFlight =>
          have hne : k ≠ k' := by rintro rfl; rw [hp] at h; exact absurd h (by simp)
          rw [lookup_set_ne _ _ _ _ hne]; exact hp
      | NotRequested => exact hp
      | Completed q' => exact hp
      | Failed r' => exact hp

theorem finish_worker_failed_pres (c : CacheIndex) (k k' : SlippyTileKey)
    (o : WorkerOutcome) (r : String) (hr : lookup c k = .Failed r) :
    lookup (finish_worker c k' o).1 k = .Failed r := by
  cases o with
  | success q =>
      unfold finish_worker
      cases h : lookup c k' with
      | InFlight =>
          have hne : k ≠ k' := by rintro rfl; rw [hr] at h; exact absurd h (by simp)
          rw [lookup_set_ne _ _ _ _ hne]; exact hr
      | NotRequested => exact hr
      | Completed q' => exact hr
      | Failed r' => exact hr
  | failure r' =>
      show lookup (mark_failed c k' r') k = .Failed r
      unfold mark_failed
      cases h : lookup c k' with
      | InFlight =>
          have hne : k ≠ k' := by rintro rfl; rw [hr] at h; exact absurd h (by simp)
          rw [lookup_set_ne _ _ _ _ hne]; exact hr
      | NotRequested => exact hr
      | Completed q' => exact hr
      | Failed r'' => exact hr

theorem run_workers_completed_pres (rs : List (SlippyTileKey × WorkerOutcome)) :
    ∀ (c : CacheIndex) (k : SlippyTileKey) (p : String),
      lookup c k = .Completed p → lookup (run_workers c rs).1 k = .Completed p := by
  induction rs with
  | nil => intro c k p hp; exact hp
  | cons e tl ih =>
      intro c k p hp
      obtain ⟨k', o⟩ := e
      exact ih _ _ _ (finish_worker_completed_pres c k k' o p hp)

theorem run_workers_failed_pres (rs : List (SlippyTileKey × WorkerOutcome)) :
    ∀ (c : CacheIndex) (k : SlippyTileKey) (r : String),
      lookup c k = .Failed r → lookup (run_workers c rs).1 k = .Failed r := by
  induction rs with
  | nil => intro c k r hr; exact hr
  | cons e tl ih =>
      intro c k r hr
      obtain ⟨k', o⟩ := e
      exact ih _ _ _ (finish_worker_failed_pres c k k' o r hr)

/-! ## Tile-math lemmas -/

theorem center_tile_vals (z : ℕ) (hz : 1 ≤ z) :
    tile_x 0 z = 2 ^ (z - 1) ∧ tile_y_of_merc 0 z = 2 ^ (z - 1) := by
  obtain ⟨m, rfl⟩ : ∃ m, z = m + 1 := ⟨z - 1, by omega⟩
  constructor
  · unfold tile_x
    have h1 : ((0 : ℚ) + 180) / 360 * 2 ^ (m + 1) = ((2 ^ m : ℤ) : ℚ) := by
      push_cast
      rw [pow_succ]
      ring
    rw [h1, Int.floor_intCast]
    simp
  · unfold tile_y_of_merc
    have h1 : ((1 : ℚ) - 0) / 2 * 2 ^ (m + 1) = ((2 ^ m : ℤ) : ℚ) := by
      push_cast
      rw [pow_succ]
      ring
    rw [h1, Int.floor_intCast]
    simp

/-! ## Claim theorems -/

/-- C5: for every zoom level z with 1 ≤ z ≤ 19, the tile projection
`x = ⌊(lon+180)/360 · 2^z⌋`, `y = ⌊(1 − ln(tan lat + 1/cos lat)/π)/2 · 2^z⌋`
applied to latitude 0, longitude 0 yields the center tile
(2^(z−1), 2^(z−1)): the Mercator term at latitude 0 is exactly 0 and both
axes floor to 2^(z−1). -/
theorem to_tile_center (z : ℕ) (h1 : 1 ≤ z) (h19 : z ≤ 19) :
    Real.log (Real.tan 0 + 1 / Real.cos 0) / Real.pi = 0
  ∧ tile_x 0 z = 2 ^ (z - 1) ∧ tile_y_of_merc 0 z = 2 ^ (z - 1) := by
  refine ⟨?_, (center_tile_vals z h1).1, (center_tile_vals z h1).2⟩
  rw [Real.tan_zero, Real.cos_zero]
  norm_num

theorem to_tile_center_witness :
    ((1 : ℕ) ≤ 1 ∧ (1 : ℕ) ≤ 19)
  ∧ (Real.log (Real.tan 0 + 1 / Real.cos 0) / Real.pi = 0
     ∧ tile_x 0 1 = 2 ^ (1 - 1) ∧ tile_y_of_merc 0 1 = 2 ^ (1 - 1)) :=
  ⟨⟨by decide, by decide⟩, to_tile_center 1 (by decide) (by decide)⟩

/-- C1: the pixel offset at which the host places a tile relative to the
origin tile is ((origin.x − key.x)·tile_px, (origin.y − key.y)·tile_px):
the `display_tiles` translation is exactly this offset plus the viewport
centering term −world/2 + tile_px/2 on each axis; and for origin (x0,y0)
and target (x0+1,y0) with tile_px = 256, the offset is (−256, 0). -/
theorem pixel_offset_correct (st : WorldState) (ev : SlippyTileDownloadedEvent) (x0 y0 : ℕ) :
    tile_transform st ev =
      (((to_pixel_offset ev.coordinates (origin_tile ev.zoom_level)
            (ev.tile_size.to_pixels : ℤ)).1 : ℚ)
          - st.world.1 / 2 + (ev.tile_size.to_pixels : ℚ) / 2,
       ((to_pixel_offset ev.coordinates (origin_tile ev.zoom_level)
            (ev.tile_size.to_pixels : ℤ)).2 : ℚ)
          - st.world.2 / 2 + (ev.tile_size.to_pixels : ℚ) / 2)
  ∧ to_pixel_offset ⟨x0 + 1, y0⟩ ⟨x0, y0⟩ 256 = (-256, 0) := by
  constructor
  · refine Prod.ext_iff.mpr ⟨?_, ?_⟩ <;>
      simp only [tile_transform, transform_with_origin, to_pixel_offset] <;>
      push_cast <;>
      ring
  · refine Prod.ext_iff.mpr ⟨?_, ?_⟩ <;>
      simp only [to_pixel_offset] <;>
      push_cast <;>
      ring

/-- C7: tile placement is position-idempotent — running `display_tiles`
on any two permuted event sequences yields permuted (hence set-equal)
sprite lists, since each sprite is a function only of its own event and
the fixed world extent. -/
theorem placement_order_independent (st : WorldState)
    (evs evs' : List SlippyTileDownloadedEvent) (h : evs.Perm evs') :
    (display_tiles st evs).Perm (display_tiles st evs')
  ∧ ∀ s, s ∈ display_tiles st evs ↔ s ∈ display_tiles st evs' :=
  ⟨h.map (spawn_sprite st), fun s => (h.map (spawn_sprite st)).mem_iff⟩

theorem placement_order_independent_witness :
    (([⟨1, .Normal, ⟨0, 0⟩, "a"⟩, ⟨1, .Normal, ⟨1, 0⟩, "b"⟩] :
        List SlippyTileDownloadedEvent).Perm
      [⟨1, .Normal, ⟨1, 0⟩, "b"⟩, ⟨1, .Normal, ⟨0, 0⟩, "a"⟩])
  ∧ (display_tiles ⟨(512, 512)⟩
        [⟨1, .Normal, ⟨0, 0⟩, "a"⟩, ⟨1, .Normal, ⟨1, 0⟩, "b"⟩]).Perm
      (display_tiles ⟨(512, 512)⟩
        [⟨1, .Normal, ⟨1, 0⟩, "b"⟩, ⟨1, .Normal, ⟨0, 0⟩, "a"⟩]) := by
  have hp : ([⟨1, .Normal, ⟨0, 0⟩, "a"⟩, ⟨1, .Normal, ⟨1, 0⟩, "b"⟩] :
      List SlippyTileDownloadedEvent).Perm
      [⟨1, .Normal, ⟨1, 0⟩, "b"⟩, ⟨1, .Normal, ⟨0, 0⟩, "a"⟩] :=
    List.Perm.swap _ _ _
  exact ⟨hp, (placement_order_independent ⟨(512, 512)⟩ _ _ hp).1⟩

/-- C8: the host emits exactly one DownloadSlippyTilesEvent over its run —
the startup request (Normal, zoom 1, latitude/longitude (0,0), radius 1,
use_cache = true) sent by `setup`; `end_moving` computes latitude =
camera.y/10 and longitude = camera.x/10 from the camera position but
emits no fetch-request event. -/
theorem single_startup_request :
    setup_fetch_events =
      [{ tile_size := .Normal, zoom_level := 1, coordinates := (0, 0),
         radius := 1, use_cache := true }]
  ∧ setup_fetch_events.length = 1
  ∧ ∀ cx cy : ℚ, (end_moving cx cy).2 = []
      ∧ (end_moving cx cy).1 = (cy / 10, cx / 10) :=
  ⟨rfl, rfl, fun _ _ => ⟨rfl, rfl⟩⟩

/-- C9: for every event it processes, `display_tiles` recomputes the
origin tile as the slippy-tile coordinates of latitude/longitude (0,0)
at that event's zoom level; the origin depends only on the zoom level
(not on the event's own tile coordinates, size or path), and for
zoom ≥ 1 it is the center tile (2^(z−1), 2^(z−1)). -/
theorem origin_is_zero_zero_tile (st : WorldState) (ev : SlippyTileDownloadedEvent)
    (z : ℕ) (hz : 1 ≤ z) :
    tile_transform st ev = transform_with_origin (origin_tile ev.zoom_level) st ev
  ∧ (∀ ev' : SlippyTileDownloadedEvent, ev'.zoom_level = ev.zoom_level →
      origin_tile ev'.zoom_level = origin_tile ev.zoom_level)
  ∧ origin_tile z = ⟨2 ^ (z - 1), 2 ^ (z - 1)⟩ := by
  refine ⟨rfl, fun ev' h => by rw [h], ?_⟩
  obtain ⟨hx, hy⟩ := center_tile_vals z hz
  unfold origin_tile
  rw [hx, hy]
  have ht : ((2 : ℤ) ^ (z - 1)).toNat = 2 ^ (z - 1) := by
    rw [show ((2 : ℤ) ^ (z - 1)) = ((2 ^ (z - 1) : ℕ) : ℤ) from by push_cast; ring]
    exact Int.toNat_ofNat _
  rw [ht]

theorem origin_is_zero_zero_tile_witness :
    (1 : ℕ) ≤ 1
  ∧ (tile_transform ⟨(512, 512)⟩ ⟨1, .Normal, ⟨0, 0⟩, "t"⟩ =
       transform_with_origin (origin_tile 1) ⟨(512, 512)⟩ ⟨1, .Normal, ⟨0, 0⟩, "t"⟩
     ∧ (∀ ev' : SlippyTileDownloadedEvent, ev'.zoom_level = 1 →
         origin_tile ev'.zoom_level = origin_tile 1)
     ∧ origin_tile 1 = ⟨2 ^ (1 - 1), 2 ^ (1 - 1)⟩) :=
  ⟨by decide,
   origin_is_zero_zero_tile ⟨(512, 512)⟩ ⟨1, .Normal, ⟨0, 0⟩, "t"⟩ 1 (by decide)⟩

/-- C10: `display_tiles` spawns exactly one new sprite per received event,
with custom size tile_px × tile_px, and performs no deduplication of
downloaded-tile events: delivering the same event twice yields two
coincident sprites for the same tile. -/
theorem one_sprite_per_event (st : WorldState) (evs : List SlippyTileDownloadedEvent)
    (ev : SlippyTileDownloadedEvent) :
    (display_tiles st evs).length = evs.length
  ∧ display_tiles st [ev, ev] = [spawn_sprite st ev, spawn_sprite st ev]
  ∧ (spawn_sprite st ev).custom_size =
      ((ev.tile_size.to_pixels : ℚ), (ev.tile_size.to_pixels : ℚ)) :=
  ⟨List.length_map evs (spawn_sprite st), rfl, rfl⟩

theorem run_workers_batch (rs : List (SlippyTileKey × WorkerOutcome)) :
    ∀ c : CacheIndex, (rs.map Prod.fst).Nodup →
      (∀ e ∈ rs, lookup c e.1 = .InFlight) →
      (run_workers c rs).2 = rs.filterMap (fun e =>
          match e.2 with
          | .success p => some ⟨e.1, p⟩
          | .failure _ => none)
      ∧ (∀ e ∈ rs, ∀ p, e.2 = .success p →
          lookup (run_workers c rs).1 e.1 = .Completed p)
      ∧ (∀ e ∈ rs, ∀ r, e.2 = .failure r →
          lookup (run_workers c rs).1 e.1 = .Failed r) := by
  induction rs with
  | nil =>
      intro c _ _
      exact ⟨rfl, fun e he => absurd he (List.not_mem_nil e),
        fun e he => absurd he (List.not_mem_nil e)⟩
  | cons e₀ tl ih =>
      intro c hnd hif
      obtain ⟨k₀, o₀⟩ := e₀
      rw [List.map_cons] at hnd
      obtain ⟨hk₀, hnd'⟩ := List.nodup_cons.mp hnd
      have hif₀ : lookup c k₀ = .InFlight := hif (k₀, o₀) (List.mem_cons_self _ _)
      have hiftl : ∀ (r : DownloadRecord), ∀ e ∈ tl,
          lookup (set_record c k₀ r) e.1 = .InFlight := by
        intro r e he
        have hmem : e.1 ∈ tl.map Prod.fst := List.mem_map_of_mem Prod.fst he
        have hne : e.1 ≠ k₀ := by
          intro h
          rw [h] at hmem
          exact hk₀ hmem
        rw [lookup_set_ne _ _ _ _ hne]
        exact hif e (List.mem_cons_of_mem _ he)
      cases o₀ with
      | success p =>
          have hfw : finish_worker c k₀ (.success p) =
              (set_record c k₀ (.Completed p), [⟨k₀, p⟩]) := by
            unfold finish_worker
            rw [hif₀]
          have hrw : run_workers c ((k₀, .success p) :: tl) =
              ((run_workers (set_record c k₀ (.Completed p)) tl).1,
               ⟨k₀, p⟩ :: (run_workers (set_record c k₀ (.Completed p)) tl).2) := by
            show ((run_workers (finish_worker c k₀ (.success p)).1 tl).1,
                (finish_worker c k₀ (.success p)).2 ++
                  (run_workers (finish_worker c k₀ (.success p)).1 tl).2) = _
            rw [hfw]
            rfl
          obtain ⟨ih1, ih2, ih3⟩ :=
            ih (set_record c k₀ (.Completed p)) hnd' (hiftl (.Completed p))
          refine ⟨?_, ?_, ?_⟩
          · rw [hrw, List.filterMap_cons]
            show ⟨k₀, p⟩ :: (run_workers (set_record c k₀ (.Completed p)) tl).2 =
              ⟨k₀, p⟩ :: tl.filterMap _
            rw [ih1]
          · intro e he q hq
            rcases List.mem_cons.mp he with he' | he'
            · rw [he'] at hq ⊢
              have hpq : p = q := by
                have : WorkerOutcome.success p = .success q := hq
                injection this
              rw [hrw]
              exact run_workers_completed_pres tl _ _ _
                (by rw [lookup_set_self, hpq])
            · rw [hrw]
              exact ih2 e he' q hq
          · intro e he r hr
            rcases List.mem_cons.mp he with he' | he'
            · rw [he'] at hr
              exact absurd hr (by simp)
            · rw [hrw]
              exact ih3 e he' r hr
      | failure r₀ =>
          have hfw : finish_worker c k₀ (.failure r₀) =
              (set_record c k₀ (.Failed r₀), []) := by
            unfold finish_worker mark_failed
            rw [hif₀]
          have hrw : run_workers c ((k₀, .failure r₀) :: tl) =
              ((run_workers (set_record c k₀ (.Failed r₀)) tl).1,
               (run_workers (set_record c k₀ (.Failed r₀)) tl).2) := by
            show ((run_workers (finish_worker c k₀ (.failure r₀)).1 tl).1,
                (finish_worker c k₀ (.failure r₀)).2 ++
                  (run_workers (finish_worker c k₀ (.failure r₀)).1 tl).2) = _
            rw [hfw]
            rfl
          obtain ⟨ih1, ih2, ih3⟩ :=
            ih (set_record c k₀ (.Failed r₀)) hnd' (hiftl (.Failed r₀))
          refine ⟨?_, ?_, ?_⟩
          · rw [hrw, List.filterMap_cons]
            show (run_workers (set_record c k₀ (.Failed r₀)) tl).2 = tl.filterMap _
            rw [ih1]
          · intro e he q hq
            rcases List.mem_cons.mp he with he' | he'
            · rw [he'] at hq
              exact absurd hq (by simp)
            · rw [hrw]
              exact ih2 e he' q hq
          · intro e he r hr
            rcases List.mem_cons.mp he with he' | he'
            · rw [he'] at hr ⊢
              have hrr : r₀ = r := by
                have : WorkerOutcome.failure r₀ = .failure r := hr
                injection this
              rw [hrw]
              exact run_workers_failed_pres tl _ _ _
                (by rw [lookup_set_self, hrr])
            · rw [hrw]
              exact ih3 e he' r hr

/-- C6: failure containment — a fetch failure for one key transitions only
that key's record (to Failed, leaving every other key's record
untouched), and in a batch of worker results over distinct in-flight
keys every successful key still reaches Completed and gets its
TileDownloadedEvent whatever failures occur elsewhere: the emitted
events are exactly those of the successful keys, the whole batch being
processed to the end. -/
theorem failure_containment :
    (∀ (c : CacheIndex) (k k' : SlippyTileKey) (reason : String), k' ≠ k →
        lookup (mark_failed c k reason) k' = lookup c k')
  ∧ (∀ (c : CacheIndex) (k : SlippyTileKey) (reason : String),
        lookup c k = .InFlight → lookup (mark_failed c k reason) k = .Failed reason)
  ∧ (∀ (c : CacheIndex) (rs : List (SlippyTileKey × WorkerOutcome)),
        (rs.map Prod.fst).Nodup →
        (∀ e ∈ rs, lookup c e.1 = .InFlight) →
        (run_workers c rs).2 = rs.filterMap (fun e =>
            match e.2 with
            | .success p => some ⟨e.1, p⟩
            | .failure _ => none)
        ∧ (∀ e ∈ rs, ∀ p, e.2 = .success p →
            lookup (run_workers c rs).1 e.1 = .Completed p)
        ∧ (∀ e ∈ rs, ∀ r, e.2 = .failure r →
            lookup (run_workers c rs).1 e.1 = .Failed r)) := by
  refine ⟨?_, ?_, fun c rs hnd hif => run_workers_batch rs c hnd hif⟩
  · intro c k k' reason hne
    unfold mark_failed
    cases h : lookup c k with
    | InFlight => rw [lookup_set_ne _ _ _ _ hne]
    | NotRequested => rfl
    | Completed p => rfl
    | Failed r => rfl
  · intro c k reason h
    unfold mark_failed
    rw [h]
    exact lookup_set_self _ _ _

theorem failure_containment_witness :
    ((⟨1, 1, 0, .Normal⟩ : SlippyTileKey) ≠ ⟨1, 0, 0, .Normal⟩
  ∧ (([(⟨1, 0, 0, .Normal⟩, WorkerOutcome.failure "net"),
      (⟨1, 1, 0, .Normal⟩, WorkerOutcome.success "b.png")] :
        List (SlippyTileKey × WorkerOutcome)).map Prod.fst).Nodup
  ∧ (∀ e ∈ ([(⟨1, 0, 0, .Normal⟩, WorkerOutcome.failure "net"),
      (⟨1, 1, 0, .Normal⟩, WorkerOutcome.success "b.png")] :
        List (SlippyTileKey × WorkerOutcome)),
        lookup (set_record (set_record [] ⟨1, 0, 0, .Normal⟩ .InFlight)
          ⟨1, 1, 0, .Normal⟩ .InFlight) e.1 = .InFlight))
  ∧ lookup (mark_failed (set_record (set_record [] ⟨1, 0, 0, .Normal⟩ .InFlight)
      ⟨1, 1, 0, .Normal⟩ .InFlight) ⟨1, 0, 0, .Normal⟩ "net") ⟨1, 1, 0, .Normal⟩ =
      lookup (set_record (set_record [] ⟨1, 0, 0, .Normal⟩ .InFlight)
        ⟨1, 1, 0, .Normal⟩ .InFlight) ⟨1, 1, 0, .Normal⟩
  ∧ (run_workers (set_record (set_record [] ⟨1, 0, 0, .Normal⟩ .InFlight)
      ⟨1, 1, 0, .Normal⟩ .InFlight)
      [(⟨1, 0, 0, .Normal⟩, WorkerOutcome.failure "net"),
       (⟨1, 1, 0, .Normal⟩, WorkerOutcome.success "b.png")]).2 =
      ([(⟨1, 0, 0, .Normal⟩, WorkerOutcome.failure "net"),
       (⟨1, 1, 0, .Normal⟩, WorkerOutcome.success "b.png")] :
        List (SlippyTileKey × WorkerOutcome)).filterMap (fun e =>
          match e.2 with
          | .success p => some (⟨e.1, p⟩ : TileDownloadedEvent)
          | .failure _ => none) :=
  ⟨⟨by decide, by decide, by decide⟩,
   failure_containment.1 _ ⟨1, 0, 0, .Normal⟩ ⟨1, 1, 0, .Normal⟩ "net" (by decide),
   (failure_containment.2.2 _ _ (by decide) (by decide)).1⟩

/-- C4: for every key, at most one fetch is in flight and at most one
Completed transition ever occurs — after a successful `mark_in_flight`,
a second `mark_in_flight` on the same key before its terminal transition
is rejected with AlreadyInFlight, and once a key's record is Completed
it never changes under any reachable cache-index transition
(use_cache = true scheduling, the only kind this program issues, or a
worker finishing). -/
theorem at_most_one_in_flight :
    (∀ (c c' : CacheIndex) (k : SlippyTileKey),
        mark_in_flight c k = .ok c' → mark_in_flight c' k = .error .AlreadyInFlight)
  ∧ (∀ (c c' : CacheIndex) (k : SlippyTileKey) (p : String),
        CacheStep c c' → lookup c k = .Completed p → lookup c' k = .Completed p) := by
  constructor
  · intro c c' k hok
    have hcc : lookup c' k = .InFlight := by
      unfold mark_in_flight at hok
      cases h : lookup c k with
      | InFlight => rw [h] at hok; simp at hok
      | NotRequested =>
          rw [h] at hok
          simp only [Except.ok.injEq] at hok
          rw [← hok, lookup_set_self]
      | Completed p =>
          rw [h] at hok
          simp only [Except.ok.injEq] at hok
          rw [← hok, lookup_set_self]
      | Failed r =>
          rw [h] at hok
          simp only [Except.ok.injEq] at hok
          rw [← hok, lookup_set_self]
    unfold mark_in_flight
    rw [hcc]
  · intro c c' k p hstep hp
    cases hstep with
    | sched req huc =>
        rw [schedule, huc]
        exact sched_fold_completed_pres (candidates req) c [] k p hp
    | finish k' o =>
        exact finish_worker_completed_pres c k k' o p hp

theorem at_most_one_in_flight_witness :
    mark_in_flight (set_record ([] : CacheIndex) ⟨1, 1, 0, .Normal⟩ .InFlight)
      ⟨1, 1, 0, .Normal⟩ = .error .AlreadyInFlight
  ∧ lookup (finish_worker (set_record ([] : CacheIndex) ⟨1, 1, 0, .Normal⟩
      (.Completed "t.png")) ⟨1, 1, 0, .Normal⟩ (.failure "boom")).1
      ⟨1, 1, 0, .Normal⟩ = .Completed "t.png" :=
  ⟨at_most_one_in_flight.1 ([] : CacheIndex) _ ⟨1, 1, 0, .Normal⟩ rfl,
   at_most_one_in_flight.2 _ _ ⟨1, 1, 0, .Normal⟩ "t.png"
     (CacheStep.finish _ ⟨1, 1, 0, .Normal⟩ (.failure "boom")) (by decide)⟩

/-- C2: dedup idempotence of the download scheduler — for a FetchRequest
with use_cache = true, issued when none of its candidate tiles is
already in flight, once every tile dispatched by the first issue has
completed, issuing the identical request a second time dispatches zero
fetch workers (zero new network calls). -/
theorem dedup_idempotent (c : CacheIndex) (req : FetchRequest) (f : SlippyTileKey → String)
    (huc : req.use_cache = true)
    (hnif : ∀ k ∈ candidates req, lookup c k ≠ .InFlight) :
    (schedule (complete_all (schedule c req).1 (schedule c req).2 f) req).2 = [] := by
  have hre : ∀ c' : CacheIndex,
      schedule c' req = (candidates req).foldl (schedule_step true) (c', []) := by
    intro c'
    rw [schedule, huc]
  have hin : ∀ k' ∈ (schedule c req).2, lookup (schedule c req).1 k' = .InFlight := by
    rw [hre]
    exact sched_fold_dispatched_inflight (candidates req) c []
      (fun x hx => absurd hx (List.not_mem_nil x))
  have hall : ∀ k ∈ candidates req,
      should_dispatch true
        (lookup (complete_all (schedule c req).1 (schedule c req).2 f) k) = false := by
    intro k hk
    rw [should_dispatch_true_eq_false_iff]
    by_cases hkd : k ∈ (schedule c req).2
    · obtain ⟨p, hp⟩ := complete_all_completes (schedule c req).2 (schedule c req).1 f
        (fun k' hk' => Or.inl (hin k' hk')) k hkd
      exact Or.inr ⟨p, hp⟩
    · have hskip : should_dispatch true (lookup c k) = false := by
        have hs := sched_fold_skipped (candidates req) c [] k hk
        rw [← hre c] at hs
        exact hs hkd
      rcases (should_dispatch_true_eq_false_iff _).mp hskip with h | ⟨p, hp⟩
      · exact absurd h (hnif k hk)
      · have hfr : lookup (schedule c req).1 k = lookup c k := by
          have hf := sched_fold_frame (candidates req) c [] k
          rw [← hre c] at hf
          exact hf hkd
        have hc2 : lookup (complete_all (schedule c req).1 (schedule c req).2 f) k =
            .Completed p :=
          complete_all_completed_pres _ _ _ _ _ (by rw [hfr, hp])
        exact Or.inr ⟨p, hc2⟩
  rw [hre, sched_fold_noop _ _ _ _ hall]

theorem dedup_idempotent_witness :
    ((⟨TileSize.Normal, 1, (1, 1), 1, true⟩ : FetchRequest).use_cache = true
  ∧ ∀ k ∈ candidates ⟨TileSize.Normal, 1, (1, 1), 1, true⟩,
      lookup ([] : CacheIndex) k ≠ .InFlight)
  ∧ (schedule (complete_all
        (schedule ([] : CacheIndex) ⟨TileSize.Normal, 1, (1, 1), 1, true⟩).1
        (schedule ([] : CacheIndex) ⟨TileSize.Normal, 1, (1, 1), 1, true⟩).2
        (fun _ => "tile.png"))
      ⟨TileSize.Normal, 1, (1, 1), 1, true⟩).2 = [] :=
  ⟨⟨rfl, by decide⟩,
   dedup_idempotent ([] : CacheIndex) ⟨TileSize.Normal, 1, (1, 1), 1, true⟩
     (fun _ => "tile.png") rfl (by decide)⟩

/-- C3: a FetchRequest with radius R ≥ 0 expands to at most (2R+1)²
candidate keys — the square neighborhood (x ± R, y ± R) of the center
tile — with fewer keys exactly when some raw neighborhood position falls
outside the grid bounds [0, 2^zoom − 1] (out-of-range positions are
silently dropped, never wrapped: every produced key is in bounds and is
one of the raw positions); R = 1 gives ≤ 9 keys, R = 2 ≤ 25, R = 3 ≤ 49. -/
theorem radius_expansion (req : FetchRequest) :
    (candidates req).length ≤ (2 * req.radius + 1) ^ 2
  ∧ ((candidates req).length = (2 * req.radius + 1) ^ 2 ↔
      ∀ p ∈ shifted_grid req, in_bounds req.zoom p = true)
  ∧ (∀ k ∈ candidates req, ((k.x : ℤ), (k.y : ℤ)) ∈ shifted_grid req
      ∧ (k.x : ℤ) ≤ 2 ^ req.zoom - 1 ∧ (k.y : ℤ) ≤ 2 ^ req.zoom - 1)
  ∧ (req.radius = 1 → (candidates req).length ≤ 9)
  ∧ (req.radius = 2 → (candidates req).length ≤ 25)
  ∧ (req.radius = 3 → (candidates req).length ≤ 49) := by
  have hglen : (shifted_grid req).length = (2 * req.radius + 1) ^ 2 := by
    unfold shifted_grid
    rw [List.length_map]
    have hpr : List.product (List.range (2 * req.radius + 1))
        (List.range (2 * req.radius + 1)) =
        List.range (2 * req.radius + 1) ×ˢ List.range (2 * req.radius + 1) := rfl
    rw [hpr, List.length_product, List.length_range]
    exact (sq (2 * req.radius + 1)).symm
  have hclen : (candidates req).length =
      ((shifted_grid req).filter (in_bounds req.zoom)).length := by
    unfold candidates
    rw [List.length_map]
  have hle : (candidates req).length ≤ (2 * req.radius + 1) ^ 2 := by
    rw [hclen, ← hglen]
    exact List.length_filter_le _ _
  refine ⟨hle, ?_, ?_, ?_, ?_, ?_⟩
  · rw [hclen, ← hglen]
    exact List.filter_length_eq_length
  · intro k hk
    unfold candidates at hk
    obtain ⟨q, hq, rfl⟩ := List.mem_map.mp hk
    obtain ⟨hq1, hq2⟩ := List.mem_filter.mp hq
    have hb : 0 ≤ q.1 ∧ q.1 ≤ 2 ^ req.zoom - 1 ∧ 0 ≤ q.2 ∧ q.2 ≤ 2 ^ req.zoom - 1 := by
      simpa [in_bounds, Bool.and_eq_true, decide_eq_true_eq, and_assoc] using hq2
    have hx : ((q.1.toNat : ℕ) : ℤ) = q.1 := Int.toNat_of_nonneg hb.1
    have hy : ((q.2.toNat : ℕ) : ℤ) = q.2 := Int.toNat_of_nonneg hb.2.2.1
    refine ⟨?_, ?_, ?_⟩
    · show ((q.1.toNat : ℤ), (q.2.toNat : ℤ)) ∈ shifted_grid req
      rw [hx, hy]
      exact hq1
    · show (q.1.toNat : ℤ) ≤ 2 ^ req.zoom - 1
      rw [hx]
      exact hb.2.1
    · show (q.2.toNat : ℤ) ≤ 2 ^ req.zoom - 1
      rw [hy]
      exact hb.2.2.2
  · intro h
    have := hle
    rw [h] at this
    norm_num at this
    exact this
  · intro h
    have := hle
    rw [h] at this
    norm_num at this
    exact this
  · intro h
    have := hle
    rw [h] at this
    norm_num at this
    exact this

theorem radius_expansion_witness :
    (⟨TileSize.Normal, 1, (1, 1), 1, true⟩ : FetchRequest).radius = 1
  ∧ (candidates ⟨TileSize.Normal, 1, (1, 1), 1, true⟩).length ≤ 9 :=
  ⟨rfl, (radius_expansion ⟨TileSize.Normal, 1, (1, 1), 1, true⟩).2.2.2.1 rfl⟩
